import Mathlib

/-!
Shallow embedding of ttk::SurfaceQuadrangulation
(src/core/base/surfaceQuadrangulation/SurfaceQuadrangulation.cpp), followed by
theorems checking the specified behaviour of its routines.
-/

/-- Context of a SurfaceQuadrangulation execution: the borrowed input arrays
and collaborator callbacks of the C++ class.  SimplexId is modelled as Int for
cell ids and Nat for dense indices; the raw input pointers are modelled as
lists read through List.getD with default 0 (the arrays are dense and the code
never checks bounds).  std::set is modelled as a sorted duplicate-free list,
std::queue as a FIFO list.  Separatrix point coordinates (floats in the
source) are modelled as rationals.  The field dist is Modelled from the spec:
ttk::Geometry::distance (Geometry.h is not part of this repository snapshot);
the spec calls it cumulative Euclidean arc length, and every theorem below
holds for an arbitrary distance function, so it is kept abstract. -/
structure SQ where
  N : ℕ
  criticalPointsCellIds : List ℤ
  criticalPointsType : List ℕ
  criticalPointsIdentifier : List ℕ
  segmentation : List ℤ
  getVertexNeighborNumber : ℕ → ℕ
  getVertexNeighbor : ℕ → ℕ → ℕ
  sepMask : List ℕ
  sepCellIds : List ℤ
  sepPoints : List ℚ
  dist : ℚ × ℚ × ℚ → ℚ × ℚ × ℚ → ℚ
  dualQuadrangulation : Bool

/-- An emitted quadrangle: the four critical-point indices appended to the
output cell buffer after the leading corner count 4. -/
structure Quad where
  v0 : ℕ
  v1 : ℕ
  v2 : ℕ
  v3 : ℕ
deriving DecidableEq

/-- The five entries one quad contributes to the flat output cell buffer
(the five emplace_back calls of the source). -/
def emitQuad (q : Quad) : List ℕ := [4, q.v0, q.v1, q.v2, q.v3]

/-- Effect of std::set insert on the sorted duplicate-free element list. -/
def setInsert {α : Type} [LinearOrder α] (x : α) : List α → List α
  | [] => [x]
  | y :: ys => if x < y then x :: y :: ys else if x = y then y :: ys else y :: setInsert x ys

/-- criticalPointsType_ read, defaulted out of bounds. -/
def typeOf (sq : SQ) (v : ℕ) : ℕ := sq.criticalPointsType.getD v 0

/-- State of the bounded flood traversal of hasCommonManifold:
the label set common_manifolds of the current point, the processedNeighbors
set and the neighborsToProcess FIFO queue. -/
structure BfsState where
  labels : List ℤ
  processed : List ℕ
  queue : List ℕ
deriving DecidableEq

/-- One iteration of the while loop of hasCommonManifold: pop the queue front,
record its segmentation label, mark it processed and push its not yet
processed neighbors.  nn is the neighbor count, which the source takes from
the start vertex (not from curr) and which is therefore constant over the
whole traversal. -/
def bfsStep (sq : SQ) (nn : ℕ) (s : BfsState) : BfsState :=
  match s.queue with
  | [] => s
  | curr :: rest =>
    let labels := setInsert (sq.segmentation.getD curr 0) s.labels
    let processed := setInsert curr s.processed
    let pushes := (List.range nn).filterMap (fun j =>
      let next := sq.getVertexNeighbor curr j
      if next ∈ processed then none else some next)
    ⟨labels, processed, rest ++ pushes⟩

/-- The while loop of hasCommonManifold: iterate while the queue is nonempty,
breaking after an iteration once more than 20 vertices are processed.  The
C++ loop terminates on every input (the 20 cap stops growth and the FIFO
queue then drains); it is modelled with explicit fuel, and every theorem
below either holds for all fuel values or certifies that the run has
stabilised at the fuel it uses. -/
def bfsRun (sq : SQ) (nn : ℕ) : ℕ → BfsState → BfsState
  | 0, s => s
  | fuel + 1, s =>
    match s.queue with
    | [] => s
    | _ :: _ =>
      let t := bfsStep sq nn s
      if 20 < t.processed.length then t else bfsRun sq nn fuel t

/-- Labels collected around one input critical point v by hasCommonManifold:
the traversal starts at the TTK identifier of v and its neighbor count is
taken once from that start vertex. -/
def manifoldSet (sq : SQ) (v : ℕ) : List ℤ :=
  let vid := sq.criticalPointsIdentifier.getD v 0
  let nn := sq.getVertexNeighborNumber vid
  (bfsRun sq nn ((nn + 1) ^ 25) ⟨[], [], [vid]⟩).labels

/-- Left fold of pairwise std::set_intersection over the per-point label sets,
seeded with the first set, as in hasCommonManifold.  The C++ reads
common_manifolds[0] of an empty vector (undefined); callers always pass at
least two points, and the empty case is mapped to the empty set. -/
def foldInter : List (List ℤ) → List ℤ
  | [] => []
  | m :: rest => rest.foldl (fun acc s => acc.filter (fun x => decide (x ∈ s))) m

/-- ttk::SurfaceQuadrangulation::hasCommonManifold: true iff the intersection
of the label sets collected around every input point is nonempty. -/
def hasCommonManifold (sq : SQ) (verts : List ℕ) : Bool :=
  !(foldInter (verts.map (manifoldSet sq))).isEmpty

/-- The linear scan matching a separatrix cell id against
criticalPointsCellIds_: index of the first match, or N when nothing matches
(the C++ loop then leaves i == criticalPointsNumber_). -/
def findCP (sq : SQ) (c : ℤ) : ℕ :=
  ((List.range sq.N).find? (fun i => decide (sq.criticalPointsCellIds.getD i 0 = c))).getD sq.N

/-- sepCellIds_ filtered by sepMask_ (mask bit 1 excludes a sample), as at the
start of execute. -/
def sepFlatEdges (sq : SQ) : List ℤ :=
  (List.range sq.sepMask.length).filterMap (fun i =>
    if sq.sepMask.getD i 0 = 1 then none else some (sq.sepCellIds.getD i 0))

/-- Consecutive entries of the filtered list paired into separatrix edges. -/
def sepEdgesOf (sq : SQ) : List (ℤ × ℤ) :=
  (List.range ((sepFlatEdges sq).length / 2)).map (fun i =>
    ((sepFlatEdges sq).getD (2 * i) 0, (sepFlatEdges sq).getD (2 * i + 1) 0))

/-- The masked samples paired with their row index in the original sample
buffer (sepFlatEdgesPos in quadrangulate). -/
def sepFlatEdgesPos (sq : SQ) : List (ℤ × ℕ) :=
  (List.range sq.sepMask.length).filterMap (fun i =>
    if sq.sepMask.getD i 0 = 1 then none else some (sq.sepCellIds.getD i 0, i))

/-- Destinations accumulated under one source key of the std::map
sourceDests of dualQuadrangulate, in edge scan order, duplicates kept. -/
def dualDests (sq : SQ) (edges : List (ℤ × ℤ)) (s : ℕ) : List ℕ :=
  edges.filterMap (fun p => if findCP sq p.1 = s then some (findCP sq p.2) else none)

/-- Keys of the std::map sourceDests, in iteration order (sorted,
duplicate-free), accumulated over the edge scan. -/
def dualSources (sq : SQ) (edges : List (ℤ × ℤ)) : List ℕ :=
  (edges.map (fun p => findCP sq p.1)).foldl (fun acc s => setInsert s acc) []

/-- Per-source body of the dualQuadrangulate loop: with exactly four
destinations, reorder them by type against extrema[0] (the three else-if
branches of the source; when no other destination matches the type of extrema[0],
j, k, l all keep their initialisation i) and emit one quad; otherwise emit
nothing. -/
def dualQuadOf (sq : SQ) (extrema : List ℕ) : List Quad :=
  if extrema.length = 4 then
    let i := extrema.getD 0 0
    let e1 := extrema.getD 1 0
    let e2 := extrema.getD 2 0
    let e3 := extrema.getD 3 0
    if typeOf sq e1 = typeOf sq i then [⟨i, e2, e1, e3⟩]
    else if typeOf sq e2 = typeOf sq i then [⟨i, e1, e2, e3⟩]
    else if typeOf sq e3 = typeOf sq i then [⟨i, e2, e3, e1⟩]
    else [⟨i, i, i, i⟩]
  else []

/-- ttk::SurfaceQuadrangulation::dualQuadrangulate: quads emitted over the
sorted iteration of sourceDests. -/
def dualTuples (sq : SQ) (edges : List (ℤ × ℤ)) : List Quad :=
  (dualSources sq edges).flatMap (fun s => dualQuadOf sq (dualDests sq edges s))

/-- The std::set sepMappingDests[x] of quadrangulate, pointwise: the two
nested scans over the critical points insert, for every edge p, every index
i < N whose cell id equals p.first into the set of every index x whose cell
id equals p.second.  List.range N filtered keeps the sorted duplicate-free
std::set order.  The C++ vector is sized by the edge count, so an insertion
at x at or beyond that size is an out-of-bounds write (undefined behaviour);
the model keeps the value but the emission loops below never read past the
edge count, as in the source. -/
def destSources (sq : SQ) (edges : List (ℤ × ℤ)) (x : ℕ) : List ℕ :=
  if x < sq.N then
    (List.range sq.N).filter (fun i =>
      edges.any (fun p =>
        decide (sq.criticalPointsCellIds.getD i 0 = p.1) &&
        decide (sq.criticalPointsCellIds.getD x 0 = p.2)))
  else []

/-- Number of critical points whose cell id equals c (used by the
pointSepNumber accumulation). -/
def nMatch (sq : SQ) (c : ℤ) : ℕ :=
  ((List.range sq.N).filter (fun i => decide (sq.criticalPointsCellIds.getD i 0 = c))).length

/-- pointSepNumber of quadrangulate, pointwise: for every edge, every matched
(source, destination) index pair increments both endpoints, so x gains, per
edge p, the number of matches of p.first when x matches p.second and the
number of matches of p.second when x matches p.first. -/
def pointSepNumber (sq : SQ) (edges : List (ℤ × ℤ)) (x : ℕ) : ℕ :=
  if x < sq.N then
    (edges.map (fun p =>
      (if sq.criticalPointsCellIds.getD x 0 = p.2 then nMatch sq p.1 else 0) +
      (if sq.criticalPointsCellIds.getD x 0 = p.1 then nMatch sq p.2 else 0))).sum
  else 0

/-- All index pairs (m, n) with m before n, in the order of the two nested
loops (outer index, inner index starting one past the outer). -/
def upperTriangle {α : Type} : List α → List (α × α)
  | [] => []
  | x :: xs => (xs.map (fun y => (x, y))) ++ upperTriangle xs

/-- std::set_intersection of the source sets of destinations i and k: the
elements of the first sorted set that also belong to the second, in order. -/
def commonOf (sq : SQ) (edges : List (ℤ × ℤ)) (i k : ℕ) : List ℕ :=
  (destSources sq edges i).filter (fun j => decide (j ∈ destSources sq edges k))

/-- Body of the double destination loop of quadrangulate for one pair (i, k):
the emitted quads and the number of degenerate quads counted.  Skips follow
the source: empty source sets or equal types produce nothing; at least two
common sources emit one quad per common pair that passes hasCommonManifold;
exactly one common source with one of the two destination valences equal to
one emits the degenerate quad i, j, k, j and counts it. -/
def pairTuples (sq : SQ) (edges : List (ℤ × ℤ)) (i k : ℕ) : List Quad × ℕ :=
  let di := destSources sq edges i
  let dk := destSources sq edges k
  if di = [] ∨ dk = [] ∨ typeOf sq k = typeOf sq i then ([], 0)
  else
    let common := commonOf sq edges i k
    if 2 ≤ common.length then
      ((upperTriangle common).filterMap (fun jl =>
        if hasCommonManifold sq [jl.1, jl.2] then some ⟨i, jl.1, k, jl.2⟩ else none), 0)
    else if common.length = 1 ∧ (di.length = 1 ∨ dk.length = 1) then
      ([⟨i, common.headD 0, k, common.headD 0⟩], 1)
    else ([], 0)

/-- ttk::SurfaceQuadrangulation::quadrangulate, emission part: the destination
pair loops run over indices below the edge count (the size of the
sepMappingDests vector). -/
def quadTuples (sq : SQ) (edges : List (ℤ × ℤ)) : List Quad :=
  (upperTriangle (List.range edges.length)).flatMap (fun ik => (pairTuples sq edges ik.1 ik.2).1)

/-- The ndegen counter accumulated by quadrangulate. -/
def quadNdegen (sq : SQ) (edges : List (ℤ × ℤ)) : ℕ :=
  ((upperTriangle (List.range edges.length)).map (fun ik => (pairTuples sq edges ik.1 ik.2).2)).sum

/-- pointQuadNumber of the post-processing pass: corner occurrences of x over
all emitted quads (the four reads per 5-entry group). -/
def pointQuadNumber (qs : List Quad) (x : ℕ) : ℕ :=
  (qs.map (fun q =>
    (if q.v0 = x then 1 else 0) + (if q.v1 = x then 1 else 0) +
    (if q.v2 = x then 1 else 0) + (if q.v3 = x then 1 else 0))).sum

/-- Critical points whose realized quad incidence falls below the expected
separatrix valence, in index order. -/
def badPointsOf (sq : SQ) (edges : List (ℤ × ℤ)) (qs : List Quad) : List ℕ :=
  (List.range sq.N).filter (fun i => decide (pointQuadNumber qs i < pointSepNumber sq edges i))

/-- Quads with at least two corners among the bad points, in emission order. -/
def badQuadsOf (sq : SQ) (edges : List (ℤ × ℤ)) (qs : List Quad) : List Quad :=
  let bad := badPointsOf sq edges qs
  qs.filter (fun q => decide (2 ≤
    ((if q.v0 ∈ bad then 1 else 0) + (if q.v1 ∈ bad then 1 else 0) +
     (if q.v2 ∈ bad then 1 else 0) + (if q.v3 ∈ bad then 1 else 0) : ℕ)))

/-- Coordinate triple of sample idx in the flat separatrix point buffer. -/
def sepPt (sq : SQ) (idx : ℕ) : ℚ × ℚ × ℚ :=
  (sq.sepPoints.getD (3 * idx) 0, sq.sepPoints.getD (3 * idx + 1) 0,
   sq.sepPoints.getD (3 * idx + 2) 0)

/-- distFromA of findSeparatrixMiddle: cumulative distances from sample a,
entry i being entry i-1 plus the distance from sample a+i to sample a+i-1
(the source passes curr first).  cumDist sq a n is the prefix of length
n + 1. -/
def cumDist (sq : SQ) (a : ℕ) : ℕ → List ℚ
  | 0 => [0]
  | n + 1 =>
    let prev := cumDist sq a n
    prev ++ [prev.getLastD 0 + sq.dist (sepPt sq (a + n + 1)) (sepPt sq (a + n))]

/-- The per-sample scores minimised by findSeparatrixMiddle: distance of the
cumulative arc length to half the total.  The C++ allocates b - a + 1 slots
with size_t arithmetic; for the spans produced by sepBounds b is a later row
index than a, and the model uses truncated Nat subtraction. -/
def middleDists (sq : SQ) (a b : ℕ) : List ℚ :=
  let d := cumDist sq a (b - a)
  let distAB := d.getLastD 0
  d.map (fun el => abs (el - distAB / 2))

/-- Index of the first minimal element, as returned by std::min_element. -/
def argminIdx (l : List ℚ) : ℕ :=
  match l with
  | [] => 0
  | x :: xs =>
    (xs.foldl (fun acc y =>
      if y < acc.2.1 then (acc.2.2, y, acc.2.2 + 1) else (acc.1, acc.2.1, acc.2.2 + 1))
      ((0 : ℕ), x, (1 : ℕ))).1

/-- std::map find on the separatrix middle cache, modelled as first match in
an association list (keys are inserted at most once, so order is immaterial). -/
def cacheFind (k : ℕ × ℕ) : List ((ℕ × ℕ) × ℕ) → Option ℕ
  | [] => none
  | e :: rest => if e.1 = k then some e.2 else cacheFind k rest

/-- The sepBounds scan of findSeparatrixMiddle: every position-list index i is
paired with its successor and kept when the two cell ids match src and dst.
The source reads sepFlatEdgesPos[i + 1] for every i below the size, so the
last iteration reads one entry past the end of the vector (undefined
behaviour); the model returns a zero pair for that read. -/
def sepBounds (sq : SQ) (src dst : ℕ) (pos : List (ℤ × ℕ)) : List (ℕ × ℕ) :=
  (List.range pos.length).filterMap (fun i =>
    let p := pos.getD i (0, 0)
    let q := pos.getD (i + 1) (0, 0)
    if p.1 = sq.criticalPointsCellIds.getD src 0 ∧
       q.1 = sq.criticalPointsCellIds.getD dst 0 then
      some (p.2, q.2)
    else none)

/-- The row indices that the sepBounds scan reads from the position list. -/
def fsmScanReads {α : Type} (pos : List α) : List ℕ :=
  (List.range pos.length).flatMap (fun i => [i, i + 1])

/-- Body of the sepBounds loop of findSeparatrixMiddle for one span: skip when
the span is cached, otherwise append the arc-length middle sample coordinates
to the output point buffer and cache the span.  The state is the pair of the
output point buffer and the cache. -/
def fsmStep (sq : SQ) (st : List ℚ × List ((ℕ × ℕ) × ℕ)) (ab : ℕ × ℕ) :
    List ℚ × List ((ℕ × ℕ) × ℕ) :=
  match cacheFind ab st.2 with
  | some _ => st
  | none =>
    let idx := ab.1 + argminIdx (middleDists sq ab.1 ab.2)
    (st.1 ++ [sq.sepPoints.getD (3 * idx) 0, sq.sepPoints.getD (3 * idx + 1) 0,
      sq.sepPoints.getD (3 * idx + 2) 0], st.2 ++ [(ab, idx)])

/-- ttk::SurfaceQuadrangulation::findSeparatrixMiddle, acting on the output
point buffer and the middle cache. -/
def findSeparatrixMiddle (sq : SQ) (src dst : ℕ) (pos : List (ℤ × ℕ))
    (st : List ℚ × List ((ℕ × ℕ) × ℕ)) : List ℚ × List ((ℕ × ℕ) × ℕ) :=
  (sepBounds sq src dst pos).foldl (fsmStep sq) st

/-- The subdivision pass at the end of quadrangulate: for every bad quad,
request a middle for each of its four separatrix edges. -/
def repairPass (sq : SQ) (edges : List (ℤ × ℤ)) (qs : List Quad) :
    List ℚ × List ((ℕ × ℕ) × ℕ) :=
  let pos := sepFlatEdgesPos sq
  (badQuadsOf sq edges qs).foldl (fun st q =>
    let st1 := findSeparatrixMiddle sq q.v1 q.v0 pos st
    let st2 := findSeparatrixMiddle sq q.v1 q.v2 pos st1
    let st3 := findSeparatrixMiddle sq q.v3 q.v0 pos st2
    findSeparatrixMiddle sq q.v3 q.v2 pos st3) ([], [])

/-- The maxSegId accumulation of execute: fold of the segmentation array with
if greater then replace, started at 0. -/
def maxFold (l : List ℤ) : ℤ := l.foldl (fun m x => if x > m then x else m) 0

/-- maxSegId for an execution context. -/
def maxSegId (sq : SQ) : ℤ := maxFold sq.segmentation

/-- Maximum of a nonempty list, head-seeded (0 for the empty list). -/
def listMax : List ℤ → ℤ
  | [] => 0
  | x :: xs => xs.foldl max x

/-- Result of one call of ttk::SurfaceQuadrangulation::execute: the return
status, the two output buffers, the degenerate counter and the manifold count
it reports (none when the odd-count check aborts before the count is
computed). -/
structure ExecOut where
  status : ℤ
  cells : List ℕ
  points : List ℚ
  ndegen : ℕ
  nseg : Option ℤ
  quadNumber : ℕ
deriving DecidableEq

/-- ttk::SurfaceQuadrangulation::execute: clear the output buffers, filter the
separatrix samples by mask, fail on an odd filtered count, pair the samples
into edges, dispatch to the dual or direct builder (the direct path also runs
the subdivision pass, which touches only the point buffer), and report
1 + maxSegId manifolds. -/
def execute (sq : SQ) : ExecOut :=
  if (sepFlatEdges sq).length % 2 ≠ 0 then
    ⟨-1, [], [], 0, none, 0⟩
  else
    let edges := sepEdgesOf sq
    let tup := if sq.dualQuadrangulation then dualTuples sq edges else quadTuples sq edges
    let cells := tup.flatMap emitQuad
    let pts := if sq.dualQuadrangulation then [] else (repairPass sq edges (quadTuples sq edges)).1
    let nd := if sq.dualQuadrangulation then 0 else quadNdegen sq edges
    ⟨0, cells, pts, nd, some (maxSegId sq + 1), cells.length / 5⟩

/-- Well-formedness of the flat output cell buffer: a sequence of 5-entry
groups, each led by the corner count 4 and followed by four indices below N. -/
def wfCells (N : ℕ) : List ℕ → Bool
  | [] => true
  | c :: a :: b :: cc :: d :: rest =>
    decide (c = 4) && decide (a < N) && decide (b < N) && decide (cc < N) && decide (d < N) &&
      wfCells N rest
  | _ => false

/-- Number of 5-entry groups of the flat cell buffer whose second and fourth
corner entries coincide (degenerate quads). -/
def countDegen : List ℕ → ℕ
  | _ :: _ :: b :: _ :: d :: rest => (if b = d then 1 else 0) + countDegen rest
  | _ => 0

/-- The guard of the degenerate branch of quadrangulate for a destination
pair. -/
def degenCond (sq : SQ) (edges : List (ℤ × ℤ)) (i k : ℕ) : Bool :=
  let di := destSources sq edges i
  let dk := destSources sq edges k
  decide (¬(di = [] ∨ dk = [] ∨ typeOf sq k = typeOf sq i)) &&
  decide ((commonOf sq edges i k).length = 1) &&
  decide (di.length = 1 ∨ dk.length = 1)

/-- Direct-mode scenario of the spec: minimum 0, saddle 1, maximum 2,
saddle 3; each saddle connects to both extrema; isolated-vertex
triangulation with an all-zero segmentation. -/
def sqD : SQ where
  N := 4
  criticalPointsCellIds := [10, 11, 12, 13]
  criticalPointsType := [0, 1, 2, 1]
  criticalPointsIdentifier := [0, 1, 2, 3]
  segmentation := [0, 0, 0, 0]
  getVertexNeighborNumber := fun _ => 0
  getVertexNeighbor := fun _ _ => 0
  sepMask := [0, 0, 0, 0, 0, 0, 0, 0]
  sepCellIds := [11, 10, 11, 12, 13, 10, 13, 12]
  sepPoints := []
  dist := fun _ _ => 0
  dualQuadrangulation := false

/-- Dual-mode input whose separatrix destination cell id 99 matches no
critical point, so the linear scan leaves the index at N = 1. -/
def sqC1 : SQ where
  N := 1
  criticalPointsCellIds := [10]
  criticalPointsType := [1]
  criticalPointsIdentifier := [0]
  segmentation := []
  getVertexNeighborNumber := fun _ => 0
  getVertexNeighbor := fun _ _ => 0
  sepMask := [0, 0, 0, 0, 0, 0, 0, 0]
  sepCellIds := [10, 99, 10, 99, 10, 99, 10, 99]
  sepPoints := []
  dist := fun _ _ => 0
  dualQuadrangulation := true

/-- Dual-mode context for the per-source analysis: saddle 0 (cell 10) with
four extrema destinations 1..4 of alternating types. -/
def sqC4 : SQ where
  N := 5
  criticalPointsCellIds := [10, 11, 12, 13, 14]
  criticalPointsType := [1, 0, 2, 0, 2]
  criticalPointsIdentifier := [0, 1, 2, 3, 4]
  segmentation := []
  getVertexNeighborNumber := fun _ => 0
  getVertexNeighbor := fun _ _ => 0
  sepMask := []
  sepCellIds := []
  sepPoints := []
  dist := fun _ _ => 0
  dualQuadrangulation := true

/-- The four separatrix edges of the sqC4 context, saddle cell 10 to each
extremum cell. -/
def edgesC4 : List (ℤ × ℤ) := [(10, 11), (10, 12), (10, 13), (10, 14)]

/-- Context whose triangulation is an infinite path (every vertex has the
single neighbor one past it), so the flood traversal from vertex 0 keeps
finding fresh vertices until the size cap breaks the loop. -/
def sqLine : SQ where
  N := 1
  criticalPointsCellIds := [10]
  criticalPointsType := [1]
  criticalPointsIdentifier := [0]
  segmentation := []
  getVertexNeighborNumber := fun _ => 1
  getVertexNeighbor := fun v _ => v + 1
  sepMask := []
  sepCellIds := []
  sepPoints := []
  dist := fun _ _ => 0
  dualQuadrangulation := false

/-- Input with a single unmasked separatrix sample: the filtered count 1 is
odd. -/
def sqOdd : SQ where
  N := 1
  criticalPointsCellIds := [10]
  criticalPointsType := [1]
  criticalPointsIdentifier := [0]
  segmentation := [0]
  getVertexNeighborNumber := fun _ => 0
  getVertexNeighbor := fun _ _ => 0
  sepMask := [0]
  sepCellIds := [10]
  sepPoints := []
  dist := fun _ _ => 0
  dualQuadrangulation := false

/-- Dual-mode context with no separatrices and segmentation labels 0, 2, 1,
for exercising the manifold count report. -/
def sqW9 : SQ where
  N := 0
  criticalPointsCellIds := []
  criticalPointsType := []
  criticalPointsIdentifier := []
  segmentation := [0, 2, 1]
  getVertexNeighborNumber := fun _ => 0
  getVertexNeighbor := fun _ _ => 0
  sepMask := []
  sepCellIds := []
  sepPoints := []
  dist := fun _ _ => 0
  dualQuadrangulation := true

theorem length_filterMap_ite {α β : Type} (l : List α) (p : α → Bool) (f : α → β) :
    (l.filterMap (fun x => if p x then some (f x) else none)).length = l.countP p := by
  induction l with
  | nil => rfl
  | cons x xs ih =>
    by_cases h : p x <;>
      simp [List.filterMap_cons, List.countP_cons, h, ih, Nat.add_comm]

theorem sum_indicator_eq_countP {α : Type} (l : List α) (p : α → Bool) :
    (l.map (fun x => if p x then (1 : ℕ) else 0)).sum = l.countP p := by
  induction l with
  | nil => rfl
  | cons x xs ih =>
    by_cases h : p x <;> simp [List.countP_cons, h, ih, Nat.add_comm]

theorem mem_upperTriangle {α : Type} {l : List α} {a b : α}
    (h : (a, b) ∈ upperTriangle l) : a ∈ l ∧ b ∈ l := by
  induction l with
  | nil => simp [upperTriangle] at h
  | cons x xs ih =>
    simp only [upperTriangle, List.mem_append, List.mem_map] at h
    rcases h with ⟨y, hy, heq⟩ | h
    · have h1 : x = a := congrArg Prod.fst heq
      have h2 : y = b := congrArg Prod.snd heq
      subst h1; subst h2
      exact ⟨List.mem_cons_self .., List.mem_cons_of_mem _ hy⟩
    · obtain ⟨h1, h2⟩ := ih h
      exact ⟨List.mem_cons_of_mem _ h1, List.mem_cons_of_mem _ h2⟩

theorem upperTriangle_two_le {α : Type} {l : List α} {a b : α}
    (h : (a, b) ∈ upperTriangle l) : 2 ≤ l.length := by
  induction l with
  | nil => simp [upperTriangle] at h
  | cons x xs ih =>
    simp only [upperTriangle, List.mem_append, List.mem_map] at h
    rcases h with ⟨y, hy, _⟩ | h
    · cases xs with
      | nil => simp at hy
      | cons z zs => simp [List.length_cons]
    · have := ih h
      simp only [List.length_cons]
      omega

theorem upperTriangle_length {α : Type} (l : List α) :
    (upperTriangle l).length = l.length.choose 2 := by
  induction l with
  | nil => rfl
  | cons x xs ih =>
    simp only [upperTriangle, List.length_append, List.length_map, ih,
      List.length_cons]
    rw [Nat.choose_succ_succ, Nat.choose_one_right]

theorem upperTriangle_ne {α : Type} {l : List α} {a b : α} (hnd : l.Nodup)
    (h : (a, b) ∈ upperTriangle l) : a ≠ b := by
  induction l with
  | nil => simp [upperTriangle] at h
  | cons x xs ih =>
    simp only [upperTriangle, List.mem_append, List.mem_map] at h
    obtain ⟨hx, hxs⟩ := List.nodup_cons.mp hnd
    rcases h with ⟨y, hy, heq⟩ | h
    · have h1 : x = a := congrArg Prod.fst heq
      have h2 : y = b := congrArg Prod.snd heq
      intro hab
      apply hx
      rw [h1, hab, ← h2]
      exact hy
    · exact ih hxs h

theorem wfCells_quad_cons (N : ℕ) (q : Quad) (rest : List ℕ) :
    wfCells N (emitQuad q ++ rest) = true ↔
      ((q.v0 < N ∧ q.v1 < N ∧ q.v2 < N ∧ q.v3 < N) ∧ wfCells N rest = true) := by
  show (decide ((4 : ℕ) = 4) && decide (q.v0 < N) && decide (q.v1 < N) && decide (q.v2 < N) &&
    decide (q.v3 < N) && wfCells N rest) = true ↔ _
  simp [Bool.and_eq_true, and_assoc]

theorem wfCells_flatMap (N : ℕ) (qs : List Quad) :
    wfCells N (qs.flatMap emitQuad) = true ↔
      ∀ q ∈ qs, q.v0 < N ∧ q.v1 < N ∧ q.v2 < N ∧ q.v3 < N := by
  induction qs with
  | nil => simp [wfCells]
  | cons q rest ih =>
    rw [List.flatMap_cons, wfCells_quad_cons, ih]
    constructor
    · rintro ⟨h0, h4⟩
      intro p hp
      rcases List.mem_cons.mp hp with rfl | hp
      · exact h0
      · exact h4 p hp
    · intro h
      exact ⟨h q (List.mem_cons_self ..), fun p hp => h p (List.mem_cons_of_mem _ hp)⟩

theorem countDegen_quad_cons (q : Quad) (rest : List ℕ) :
    countDegen (emitQuad q ++ rest) = (if q.v1 = q.v3 then 1 else 0) + countDegen rest := rfl

theorem countDegen_flatMap (qs : List Quad) :
    countDegen (qs.flatMap emitQuad) = qs.countP (fun q => decide (q.v1 = q.v3)) := by
  induction qs with
  | nil => rfl
  | cons q rest ih =>
    rw [List.flatMap_cons, countDegen_quad_cons, ih, List.countP_cons]
    by_cases h : q.v1 = q.v3 <;> simp [h, Nat.add_comm]

theorem countP_flatMap {α β : Type} (l : List α) (f : α → List β) (p : β → Bool) :
    (l.flatMap f).countP p = (l.map (fun x => (f x).countP p)).sum := by
  induction l with
  | nil => rfl
  | cons x xs ih => rw [List.flatMap_cons, List.countP_append, ih, List.map_cons, List.sum_cons]

theorem destSources_lt {sq : SQ} {edges : List (ℤ × ℤ)} {x y : ℕ}
    (h : x ∈ destSources sq edges y) : x < sq.N := by
  unfold destSources at h
  split at h
  · exact List.mem_range.mp (List.mem_filter.mp h).1
  · simp at h

theorem destSources_ne_nil_lt {sq : SQ} {edges : List (ℤ × ℤ)} {y : ℕ}
    (h : destSources sq edges y ≠ []) : y < sq.N := by
  unfold destSources at h
  split at h
  · assumption
  · simp at h

theorem destSources_nodup (sq : SQ) (edges : List (ℤ × ℤ)) (y : ℕ) :
    (destSources sq edges y).Nodup := by
  unfold destSources
  split
  · exact (List.nodup_range _).filter _
  · exact List.nodup_nil

theorem commonOf_sub_left {sq : SQ} {edges : List (ℤ × ℤ)} {i k j : ℕ}
    (h : j ∈ commonOf sq edges i k) : j ∈ destSources sq edges i :=
  (List.mem_filter.mp h).1

theorem commonOf_sub_right {sq : SQ} {edges : List (ℤ × ℤ)} {i k j : ℕ}
    (h : j ∈ commonOf sq edges i k) : j ∈ destSources sq edges k := by
  have := (List.mem_filter.mp h).2
  simpa using this

theorem commonOf_nodup (sq : SQ) (edges : List (ℤ × ℤ)) (i k : ℕ) :
    (commonOf sq edges i k).Nodup :=
  (destSources_nodup sq edges i).filter _

theorem headD_mem {α : Type} {l : List α} (h : l ≠ []) (d : α) : l.headD d ∈ l := by
  cases l with
  | nil => exact absurd rfl h
  | cons x xs => exact List.mem_cons_self ..

theorem mem_pairTuples {sq : SQ} {edges : List (ℤ × ℤ)} {i k : ℕ} {q : Quad}
    (h : q ∈ (pairTuples sq edges i k).1) :
    q.v0 = i ∧ q.v2 = k ∧ q.v1 ∈ commonOf sq edges i k ∧ q.v3 ∈ commonOf sq edges i k := by
  simp only [pairTuples] at h
  split_ifs at h with h1 h2 h3
  · simp at h
  · obtain ⟨jl, hjl, heq⟩ := List.mem_filterMap.mp h
    split_ifs at heq
    obtain rfl := Option.some.injEq .. ▸ heq
    obtain ⟨hj, hl⟩ := mem_upperTriangle hjl
    exact ⟨rfl, rfl, hj, hl⟩
  · have hne : commonOf sq edges i k ≠ [] := by
      intro hc
      rw [hc] at h3
      simp at h3
    rcases List.mem_singleton.mp h with rfl
    exact ⟨rfl, rfl, headD_mem hne 0, headD_mem hne 0⟩
  · simp at h

theorem pairTuples_countP_degen (sq : SQ) (edges : List (ℤ × ℤ)) (i k : ℕ) :
    ((pairTuples sq edges i k).1).countP (fun q => decide (q.v1 = q.v3)) =
      (pairTuples sq edges i k).2 := by
  simp only [pairTuples]
  split_ifs with h1 h2 h3
  · rfl
  · simp only []
    rw [List.countP_eq_zero]
    intro q hq
    obtain ⟨jl, hjl, heq⟩ := List.mem_filterMap.mp hq
    obtain ⟨j, l⟩ := jl
    split_ifs at heq
    obtain rfl := Option.some.injEq .. ▸ heq
    have hnd := commonOf_nodup sq edges i k
    have hne := upperTriangle_ne hnd hjl
    simp [hne]
  · simp
  · rfl

theorem pairTuples_snd_eq (sq : SQ) (edges : List (ℤ × ℤ)) (i k : ℕ) :
    (pairTuples sq edges i k).2 = if degenCond sq edges i k then 1 else 0 := by
  simp only [pairTuples, degenCond]
  split_ifs with h1 h2 h3 <;>
    simp_all [Bool.and_eq_true, decide_eq_true_eq]

/-- Claim C5: in direct mode the degenerate-quad counter ndegen returned by
quadrangulate equals the number of emitted 5-entry groups whose 2nd and 4th
corner entries are equal, and it counts exactly the destination pairs (i, k)
satisfying the degenerate guard: exactly one common saddle and at least one of
i, k with exactly one source. -/
theorem quadrangulate_ndegen_spec (sq : SQ) (edges : List (ℤ × ℤ)) :
    countDegen ((quadTuples sq edges).flatMap emitQuad) = quadNdegen sq edges ∧
    quadNdegen sq edges =
      (upperTriangle (List.range edges.length)).countP
        (fun ik => degenCond sq edges ik.1 ik.2) := by
  have hfun : (fun ik : ℕ × ℕ =>
      ((pairTuples sq edges ik.1 ik.2).1).countP (fun q => decide (q.v1 = q.v3))) =
      fun ik : ℕ × ℕ => (pairTuples sq edges ik.1 ik.2).2 :=
    funext fun ik => pairTuples_countP_degen sq edges ik.1 ik.2
  have hfun2 : (fun ik : ℕ × ℕ => (pairTuples sq edges ik.1 ik.2).2) =
      fun ik : ℕ × ℕ => if degenCond sq edges ik.1 ik.2 then (1 : ℕ) else 0 :=
    funext fun ik => pairTuples_snd_eq sq edges ik.1 ik.2
  constructor
  · rw [countDegen_flatMap]
    unfold quadTuples quadNdegen
    rw [countP_flatMap]
    rw [show (fun ik : ℕ × ℕ => ((pairTuples sq edges ik.1 ik.2).1).countP
      (fun q => decide (q.v1 = q.v3))) = fun ik => (pairTuples sq edges ik.1 ik.2).2 from hfun]
  · unfold quadNdegen
    rw [hfun2, sum_indicator_eq_countP]

/-- Claim C3: in direct mode, for every enumerated destination pair (i, k) of
differing type and every pair (j, l) of their common saddles accepted by
hasCommonManifold, the quad with corners i, j, k, l is emitted; the number of
quads emitted for the pair equals the number of oracle-accepted common saddle
pairs, out of choose(n, 2) enumerated pairs for n common saddles. -/
theorem quadrangulate_common_pairs (sq : SQ) (edges : List (ℤ × ℤ)) (i k j l : ℕ)
    (hik : (i, k) ∈ upperTriangle (List.range edges.length))
    (ht : typeOf sq k ≠ typeOf sq i)
    (hjl : (j, l) ∈ upperTriangle (commonOf sq edges i k))
    (hor : hasCommonManifold sq [j, l] = true) :
    (⟨i, j, k, l⟩ : Quad) ∈ quadTuples sq edges ∧
    (pairTuples sq edges i k).1.length =
      (upperTriangle (commonOf sq edges i k)).countP
        (fun p => hasCommonManifold sq [p.1, p.2]) ∧
    (upperTriangle (commonOf sq edges i k)).length =
      (commonOf sq edges i k).length.choose 2 := by
  obtain ⟨hj, hl⟩ := mem_upperTriangle hjl
  have h2le : 2 ≤ (commonOf sq edges i k).length := upperTriangle_two_le hjl
  have hdi : destSources sq edges i ≠ [] := List.ne_nil_of_mem (commonOf_sub_left hj)
  have hdk : destSources sq edges k ≠ [] := List.ne_nil_of_mem (commonOf_sub_right hj)
  have hcond : ¬(destSources sq edges i = [] ∨ destSources sq edges k = [] ∨
      typeOf sq k = typeOf sq i) := by
    push_neg
    exact ⟨hdi, hdk, ht⟩
  have hbr : pairTuples sq edges i k =
      ((upperTriangle (commonOf sq edges i k)).filterMap (fun jl =>
        if hasCommonManifold sq [jl.1, jl.2] then
          some ⟨i, jl.1, k, jl.2⟩ else none), 0) := by
    simp only [pairTuples]
    rw [if_neg hcond, if_pos h2le]
  refine ⟨?_, ?_, upperTriangle_length _⟩
  · apply List.mem_flatMap.mpr
    refine ⟨(i, k), hik, ?_⟩
    rw [hbr]
    apply List.mem_filterMap.mpr
    exact ⟨(j, l), hjl, by rw [if_pos hor]⟩
  · rw [hbr]
    exact length_filterMap_ite _ _ _

/-- Witness for claim C3 on the four-point scenario of the spec: destination
pair (0, 2) with common saddles 1 and 3 yields the quad 0, 1, 2, 3. -/
theorem quadrangulate_common_pairs_witness :
    ((0, 2) ∈ upperTriangle (List.range (sepEdgesOf sqD).length) ∧
     typeOf sqD 2 ≠ typeOf sqD 0 ∧
     (1, 3) ∈ upperTriangle (commonOf sqD (sepEdgesOf sqD) 0 2) ∧
     hasCommonManifold sqD [1, 3] = true) ∧
    ((⟨0, 1, 2, 3⟩ : Quad) ∈ quadTuples sqD (sepEdgesOf sqD) ∧
     (pairTuples sqD (sepEdgesOf sqD) 0 2).1.length =
       (upperTriangle (commonOf sqD (sepEdgesOf sqD) 0 2)).countP
         (fun p => hasCommonManifold sqD [p.1, p.2]) ∧
     (upperTriangle (commonOf sqD (sepEdgesOf sqD) 0 2)).length =
       (commonOf sqD (sepEdgesOf sqD) 0 2).length.choose 2) :=
  ⟨⟨by decide, by decide, by decide, by decide⟩,
   quadrangulate_common_pairs sqD (sepEdgesOf sqD) 0 2 1 3
     (by decide) (by decide) (by decide) (by decide)⟩

theorem getD_mem_of_lt {α : Type} {l : List α} {i : ℕ} (h : i < l.length) (d : α) :
    l.getD i d ∈ l := by
  rw [List.getD_eq_getElem?_getD, List.getElem?_eq_getElem h]
  exact List.getElem_mem h

theorem sepEdgesOf_mem {sq : SQ} {p : ℤ × ℤ} (h : p ∈ sepEdgesOf sq) :
    p.1 ∈ sepFlatEdges sq ∧ p.2 ∈ sepFlatEdges sq := by
  unfold sepEdgesOf at h
  obtain ⟨i, hi, rfl⟩ := List.mem_map.mp h
  have hi2 : i < (sepFlatEdges sq).length / 2 := List.mem_range.mp hi
  exact ⟨getD_mem_of_lt (by omega) 0, getD_mem_of_lt (by omega) 0⟩

theorem findCP_lt {sq : SQ} {c : ℤ}
    (h : ∃ x ∈ List.range sq.N, sq.criticalPointsCellIds.getD x 0 = c) :
    findCP sq c < sq.N := by
  unfold findCP
  obtain ⟨x, hx, hc⟩ := h
  have hsome : ((List.range sq.N).find?
      (fun i => decide (sq.criticalPointsCellIds.getD i 0 = c))).isSome := by
    rw [List.find?_isSome]
    refine ⟨x, hx, ?_⟩
    simp only [decide_eq_true_eq]
    exact hc
  obtain ⟨v, hv⟩ := Option.isSome_iff_exists.mp hsome
  rw [hv]
  simpa using List.mem_range.mp (List.mem_of_find?_eq_some hv)

theorem mem_dualDests {sq : SQ} {edges : List (ℤ × ℤ)} {s x : ℕ}
    (h : x ∈ dualDests sq edges s) : ∃ p ∈ edges, x = findCP sq p.2 := by
  unfold dualDests at h
  obtain ⟨p, hp, heq⟩ := List.mem_filterMap.mp h
  split_ifs at heq
  exact ⟨p, hp, (Option.some.injEq .. ▸ heq).symm⟩

theorem mem_dualQuadOf {sq : SQ} {ds : List ℕ} {q : Quad} (h : q ∈ dualQuadOf sq ds) :
    ds.length = 4 ∧ q.v0 ∈ ds ∧ q.v1 ∈ ds ∧ q.v2 ∈ ds ∧ q.v3 ∈ ds := by
  simp only [dualQuadOf] at h
  split_ifs at h with h4 ht1 ht2 ht3 <;>
    first
      | (rcases List.mem_singleton.mp h with rfl
         exact ⟨h4, getD_mem_of_lt (by omega) 0, getD_mem_of_lt (by omega) 0,
           getD_mem_of_lt (by omega) 0, getD_mem_of_lt (by omega) 0⟩)
      | simp at h

theorem execute_cells_eq (sq : SQ) (h : (sepFlatEdges sq).length % 2 = 0) :
    (execute sq).cells =
      ((if sq.dualQuadrangulation then dualTuples sq (sepEdgesOf sq)
        else quadTuples sq (sepEdgesOf sq)).flatMap emitQuad) := by
  unfold execute
  rw [if_neg (by omega)]

/-- Claim C1 (amended): for every input that passes the even-count check and
in which every unmasked separatrix cell id matches the cell id of some
critical point, the output cell buffer of execute, in either mode, is a
sequence of 5-entry groups led by 4 whose four corner entries are valid
critical-point indices below N.  (Without the matching hypothesis the dual
mode emits the index N left by a failed scan, see the counterexample.) -/
theorem execute_cells_wellformed (sq : SQ)
    (hmatch : ∀ c ∈ sepFlatEdges sq, ∃ x ∈ List.range sq.N,
      sq.criticalPointsCellIds.getD x 0 = c) :
    wfCells sq.N (execute sq).cells = true := by
  by_cases hodd : (sepFlatEdges sq).length % 2 = 0
  · rw [execute_cells_eq sq hodd, wfCells_flatMap]
    intro q hq
    by_cases hdual : sq.dualQuadrangulation
    · rw [if_pos hdual] at hq
      obtain ⟨s, _, hqs⟩ := List.mem_flatMap.mp hq
      obtain ⟨_, h0, h1, h2, h3⟩ := mem_dualQuadOf hqs
      have hlt : ∀ x ∈ dualDests sq (sepEdgesOf sq) s, x < sq.N := by
        intro x hx
        obtain ⟨p, hp, rfl⟩ := mem_dualDests hx
        exact findCP_lt (hmatch p.2 (sepEdgesOf_mem hp).2)
      exact ⟨hlt _ h0, hlt _ h1, hlt _ h2, hlt _ h3⟩
    · rw [if_neg hdual] at hq
      obtain ⟨ik, _, hqs⟩ := List.mem_flatMap.mp hq
      obtain ⟨hv0, hv2, hc1, hc3⟩ := mem_pairTuples hqs
      have hdi : destSources sq (sepEdgesOf sq) ik.1 ≠ [] :=
        List.ne_nil_of_mem (commonOf_sub_left hc1)
      have hdk : destSources sq (sepEdgesOf sq) ik.2 ≠ [] :=
        List.ne_nil_of_mem (commonOf_sub_right hc1)
      refine ⟨?_, ?_, ?_, ?_⟩
      · rw [hv0]; exact destSources_ne_nil_lt hdi
      · exact destSources_lt (commonOf_sub_left hc1)
      · rw [hv2]; exact destSources_ne_nil_lt hdk
      · exact destSources_lt (commonOf_sub_left hc3)
  · unfold execute
    rw [if_pos (by omega)]
    rfl

/-- Counterexample for claim C1 as stated: the dual-mode input sqC1 passes the
even-count check, but its destination cell id 99 matches no critical point, so
the emitted quad holds the out-of-range index N = 1 and the output cell buffer
is not well formed. -/
theorem execute_dual_unmatched_out_of_range :
    (sepFlatEdges sqC1).length % 2 = 0 ∧ wfCells sqC1.N (execute sqC1).cells = false := by
  constructor <;> decide

/-- Witness for claim C1 (amended) on the direct-mode scenario of the spec. -/
theorem execute_cells_wellformed_witness :
    (∀ c ∈ sepFlatEdges sqD, ∃ x ∈ List.range sqD.N,
      sqD.criticalPointsCellIds.getD x 0 = c) ∧
    wfCells sqD.N (execute sqD).cells = true :=
  ⟨by decide, execute_cells_wellformed sqD (by decide)⟩

/-- Claim C2: an odd filtered separatrix sample count makes execute fail
fast: failure status -1, no builder output, both output buffers left empty. -/
theorem execute_odd_fails (sq : SQ) (h : (sepFlatEdges sq).length % 2 = 1) :
    (execute sq).status = -1 ∧ (execute sq).cells = [] ∧ (execute sq).points = [] := by
  unfold execute
  rw [if_pos (by omega)]
  exact ⟨rfl, rfl, rfl⟩

/-- Witness for claim C2 on a one-sample input. -/
theorem execute_odd_fails_witness :
    (sepFlatEdges sqOdd).length % 2 = 1 ∧
    ((execute sqOdd).status = -1 ∧ (execute sqOdd).cells = [] ∧
      (execute sqOdd).points = []) :=
  ⟨by decide, execute_odd_fails sqOdd (by decide)⟩

theorem execute_nseg_even (sq : SQ) (h : (sepFlatEdges sq).length % 2 = 0) :
    (execute sq).nseg = some (maxSegId sq + 1) := by
  unfold execute
  rw [if_neg (by omega)]

theorem execute_nseg_odd (sq : SQ) (h : (sepFlatEdges sq).length % 2 ≠ 0) :
    (execute sq).nseg = none := by
  unfold execute
  rw [if_pos h]

theorem foldl_step_eq_max (l : List ℤ) (m : ℤ) :
    l.foldl (fun m x => if x > m then x else m) m = l.foldl max m := by
  induction l generalizing m with
  | nil => rfl
  | cons x xs ih =>
    simp only [List.foldl_cons, ih]
    congr 1
    rcases le_or_lt x m with h | h
    · rw [if_neg (not_lt.mpr h), max_eq_left h]
    · rw [if_pos h, max_eq_right h.le]

theorem le_foldl_max (l : List ℤ) (m : ℤ) : m ≤ l.foldl max m := by
  induction l generalizing m with
  | nil => simp
  | cons x xs ih => exact le_trans (le_max_left m x) (ih (max m x))

theorem maxFold_nonneg (l : List ℤ) : 0 ≤ maxFold l := by
  unfold maxFold
  rw [foldl_step_eq_max]
  exact le_foldl_max l 0

theorem maxFold_eq_listMax {l : List ℤ} (hne : l ≠ []) (hpos : ∀ x ∈ l, 0 ≤ x) :
    maxFold l = listMax l := by
  cases l with
  | nil => exact absurd rfl hne
  | cons x xs =>
    unfold maxFold listMax
    rw [foldl_step_eq_max, List.foldl_cons, max_eq_right (hpos x (List.mem_cons_self ..))]

/-- Claim C9: whenever execute reports a manifold count, it equals 1 plus the
maximum of the segmentation array (for a nonempty array of nonnegative labels,
the invariant the data model states), and a reported count of 0 would force an
empty segmentation array (the count is in fact always at least 1). -/
theorem execute_manifold_count (sq : SQ) (n : ℤ) (hr : (execute sq).nseg = some n) :
    (sq.segmentation ≠ [] → (∀ x ∈ sq.segmentation, 0 ≤ x) →
      n = 1 + listMax sq.segmentation) ∧
    (n = 0 → sq.segmentation = []) := by
  by_cases hpar : (sepFlatEdges sq).length % 2 = 0
  · rw [execute_nseg_even sq hpar, Option.some.injEq] at hr
    have hn : n = maxSegId sq + 1 := hr.symm
    have hge := maxFold_nonneg sq.segmentation
    constructor
    · intro hne hpos
      rw [hn, show maxSegId sq = maxFold sq.segmentation from rfl,
        maxFold_eq_listMax hne hpos]
      omega
    · intro h0
      exfalso
      rw [hn] at h0
      unfold maxSegId at h0
      omega
  · rw [execute_nseg_odd sq hpar] at hr
    simp at hr

/-- Witness for claim C9: with segmentation labels 0, 2, 1 execute reports
3 manifolds. -/
theorem execute_manifold_count_witness :
    (execute sqW9).nseg = some 3 ∧
    ((sqW9.segmentation ≠ [] → (∀ x ∈ sqW9.segmentation, 0 ≤ x) →
      (3 : ℤ) = 1 + listMax sqW9.segmentation) ∧
     ((3 : ℤ) = 0 → sqW9.segmentation = [])) :=
  ⟨by decide, execute_manifold_count sqW9 3 (by decide)⟩

theorem sum_indicator_eq_countP_prop {α : Type} (l : List α) (p : α → Prop)
    [DecidablePred p] :
    (l.map (fun x => if p x then (1 : ℕ) else 0)).sum = l.countP (fun x => decide (p x)) := by
  induction l with
  | nil => rfl
  | cons x xs ih => by_cases h : p x <;> simp [List.countP_cons, h, ih, Nat.add_comm]

theorem dualQuadOf_len4 (sq : SQ) (ds : List ℕ) (h4 : ds.length = 4) :
    ∃ q : Quad, dualQuadOf sq ds = [q] ∧ q.v0 = ds.getD 0 0 ∧
      typeOf sq q.v2 = typeOf sq q.v0 := by
  simp only [dualQuadOf, if_pos h4]
  split_ifs with ht1 ht2 ht3
  · exact ⟨_, rfl, rfl, ht1⟩
  · exact ⟨_, rfl, rfl, ht2⟩
  · exact ⟨_, rfl, rfl, ht3⟩
  · exact ⟨_, rfl, rfl, rfl⟩

theorem dualQuadOf_length (sq : SQ) (ds : List ℕ) :
    (dualQuadOf sq ds).length = if ds.length = 4 then 1 else 0 := by
  simp only [dualQuadOf]
  split_ifs with h4 h1 h2 h3 <;> rfl

theorem dualTuples_length (sq : SQ) (edges : List (ℤ × ℤ)) :
    (dualTuples sq edges).length =
      (dualSources sq edges).countP (fun u => decide ((dualDests sq edges u).length = 4)) := by
  unfold dualTuples
  rw [List.length_flatMap]
  simp only [Function.comp_def]
  rw [show (fun s => (dualQuadOf sq (dualDests sq edges s)).length) =
    fun s => if (dualDests sq edges s).length = 4 then (1 : ℕ) else 0 from
    funext fun s => dualQuadOf_length sq _]
  exact sum_indicator_eq_countP_prop _ _

/-- Claim C4 (amended): in dual mode every source with exactly four
destinations yields exactly one quad whose first corner is the FIRST
DESTINATION (an extremum), not the saddle itself; all four corners are drawn
from the destination list, the third corner always shares the type of the first
corner (the same-typed destination is placed diagonally), and sources with a
destination count other than four yield nothing; overall one quad is emitted
per four-destination source. -/
theorem dualQuadrangulate_per_source (sq : SQ) (edges : List (ℤ × ℤ)) (s : ℕ)
    (hs : s ∈ dualSources sq edges) :
    ((dualDests sq edges s).length ≠ 4 → dualQuadOf sq (dualDests sq edges s) = []) ∧
    ((dualDests sq edges s).length = 4 →
      ∃ q : Quad, dualQuadOf sq (dualDests sq edges s) = [q] ∧
        q.v0 = (dualDests sq edges s).getD 0 0 ∧
        q.v0 ∈ dualDests sq edges s ∧ q.v1 ∈ dualDests sq edges s ∧
        q.v2 ∈ dualDests sq edges s ∧ q.v3 ∈ dualDests sq edges s ∧
        typeOf sq q.v2 = typeOf sq q.v0) ∧
    (dualTuples sq edges).length =
      (dualSources sq edges).countP (fun u => decide ((dualDests sq edges u).length = 4)) := by
  refine ⟨?_, ?_, dualTuples_length sq edges⟩
  · intro hne
    simp only [dualQuadOf, if_neg hne]
  · intro h4
    obtain ⟨q, hq, h0, ht⟩ := dualQuadOf_len4 sq _ h4
    obtain ⟨_, m0, m1, m2, m3⟩ := mem_dualQuadOf (q := q) (by
      rw [hq]
      exact List.mem_cons_self ..)
    exact ⟨q, hq, h0, m0, m1, m2, m3, ht⟩

/-- Counterexample for claim C4 as stated: in the sqC4 context the only
source key is the saddle index 0, but the first corner of the emitted quad is
the first destination 1, so no emitted quad carries the source index as its first
corner. -/
theorem dualQuadrangulate_first_corner_not_source :
    ∃ q ∈ dualTuples sqC4 edgesC4, ∀ s ∈ dualSources sqC4 edgesC4, q.v0 ≠ s := by
  decide

/-- Witness for claim C4 (amended) at the source 0 of the sqC4 context. -/
theorem dualQuadrangulate_per_source_witness :
    0 ∈ dualSources sqC4 edgesC4 ∧
    (((dualDests sqC4 edgesC4 0).length ≠ 4 →
        dualQuadOf sqC4 (dualDests sqC4 edgesC4 0) = []) ∧
     ((dualDests sqC4 edgesC4 0).length = 4 →
       ∃ q : Quad, dualQuadOf sqC4 (dualDests sqC4 edgesC4 0) = [q] ∧
         q.v0 = (dualDests sqC4 edgesC4 0).getD 0 0 ∧
         q.v0 ∈ dualDests sqC4 edgesC4 0 ∧ q.v1 ∈ dualDests sqC4 edgesC4 0 ∧
         q.v2 ∈ dualDests sqC4 edgesC4 0 ∧ q.v3 ∈ dualDests sqC4 edgesC4 0 ∧
         typeOf sqC4 q.v2 = typeOf sqC4 q.v0) ∧
     (dualTuples sqC4 edgesC4).length =
       (dualSources sqC4 edgesC4).countP
         (fun u => decide ((dualDests sqC4 edgesC4 u).length = 4))) :=
  ⟨by decide, dualQuadrangulate_per_source sqC4 edgesC4 0 (by decide)⟩

theorem cacheFind_append_some {c : List ((ℕ × ℕ) × ℕ)} {k : ℕ × ℕ} {v : ℕ}
    (h : cacheFind k c = some v) (c2 : List ((ℕ × ℕ) × ℕ)) :
    cacheFind k (c ++ c2) = some v := by
  induction c with
  | nil => simp [cacheFind] at h
  | cons e rest ih =>
    rw [List.cons_append]
    show (if e.1 = k then some e.2 else cacheFind k (rest ++ c2)) = some v
    have h2 : (if e.1 = k then some e.2 else cacheFind k rest) = some v := h
    split_ifs at h2 ⊢ with he
    · exact h2
    · exact ih h2

theorem cacheFind_append_self (c : List ((ℕ × ℕ) × ℕ)) (k : ℕ × ℕ) (v : ℕ)
    (h : cacheFind k c = none) : cacheFind k (c ++ [(k, v)]) = some v := by
  induction c with
  | nil =>
    show (if (k, v).1 = k then some (k, v).2 else cacheFind k []) = some v
    rw [if_pos rfl]
  | cons e rest ih =>
    rw [List.cons_append]
    show (if e.1 = k then some e.2 else cacheFind k (rest ++ [(k, v)])) = some v
    have h2 : (if e.1 = k then some e.2 else cacheFind k rest) = none := h
    split_ifs at h2 ⊢ with he
    exact ih h2

theorem fsmStep_cache_mono {sq : SQ} {st : List ℚ × List ((ℕ × ℕ) × ℕ)} {ab k : ℕ × ℕ}
    {v : ℕ} (h : cacheFind k st.2 = some v) :
    cacheFind k (fsmStep sq st ab).2 = some v := by
  unfold fsmStep
  cases hc : cacheFind ab st.2 with
  | some w => exact h
  | none => exact cacheFind_append_some h _

theorem fsm_foldl_cache_mono (sq : SQ) (bounds : List (ℕ × ℕ))
    (st : List ℚ × List ((ℕ × ℕ) × ℕ)) {k : ℕ × ℕ} {v : ℕ}
    (h : cacheFind k st.2 = some v) :
    cacheFind k (bounds.foldl (fsmStep sq) st).2 = some v := by
  induction bounds generalizing st with
  | nil => exact h
  | cons ab rest ih => exact ih _ (fsmStep_cache_mono h)

theorem fsm_all_cached (sq : SQ) (bounds : List (ℕ × ℕ))
    (st : List ℚ × List ((ℕ × ℕ) × ℕ)) :
    ∀ ab ∈ bounds, ∃ v, cacheFind ab (bounds.foldl (fsmStep sq) st).2 = some v := by
  induction bounds generalizing st with
  | nil => simp
  | cons b rest ih =>
    intro ab hab
    rcases List.mem_cons.mp hab with rfl | hab
    · have hstep : ∃ v, cacheFind ab (fsmStep sq st ab).2 = some v := by
        unfold fsmStep
        cases hc : cacheFind ab st.2 with
        | some w => exact ⟨w, hc⟩
        | none => exact ⟨_, cacheFind_append_self _ _ _ hc⟩
      obtain ⟨v, hv⟩ := hstep
      exact ⟨v, fsm_foldl_cache_mono sq rest _ hv⟩
    · exact ih _ ab hab

theorem fsm_foldl_of_cached (sq : SQ) (bounds : List (ℕ × ℕ))
    (st : List ℚ × List ((ℕ × ℕ) × ℕ))
    (h : ∀ ab ∈ bounds, ∃ v, cacheFind ab st.2 = some v) :
    bounds.foldl (fsmStep sq) st = st := by
  induction bounds with
  | nil => rfl
  | cons b rest ih =>
    obtain ⟨v, hv⟩ := h b (List.mem_cons_self ..)
    have hb : fsmStep sq st b = st := by
      unfold fsmStep
      rw [hv]
    rw [List.foldl_cons, hb]
    exact ih (fun ab hab => h ab (List.mem_cons_of_mem _ hab))

/-- Claim C6: findSeparatrixMiddle is idempotent with respect to its cache:
after one call, every (start, end) span it scans out of the position list is
cached, so a second call with the same arguments appends no point to the
output buffer and leaves every cache entry unchanged (the state is returned
as is). -/
theorem findSeparatrixMiddle_idempotent (sq : SQ) (src dst : ℕ) (pos : List (ℤ × ℕ))
    (st : List ℚ × List ((ℕ × ℕ) × ℕ)) :
    findSeparatrixMiddle sq src dst pos (findSeparatrixMiddle sq src dst pos st) =
      findSeparatrixMiddle sq src dst pos st := by
  unfold findSeparatrixMiddle
  exact fsm_foldl_of_cached sq _ _ (fsm_all_cached sq _ st)

theorem setInsert_length_le {α : Type} [LinearOrder α] (x : α) (l : List α) :
    (setInsert x l).length ≤ l.length + 1 := by
  induction l with
  | nil => simp [setInsert]
  | cons y ys ih =>
    unfold setInsert
    split_ifs with h1 h2
    · simp [List.length_cons]
    · simp [List.length_cons]
    · simpa using Nat.succ_le_succ ih

theorem bfsRun_nil_queue (sq : SQ) (nn fuel : ℕ) (s : BfsState) (h : s.queue = []) :
    bfsRun sq nn fuel s = s := by
  cases fuel with
  | zero => rfl
  | succ f =>
    obtain ⟨lab, proc, que⟩ := s
    cases que with
    | nil => rfl
    | cons c rest => simp at h

/-- Claim C7 (amended): during each per-point traversal of hasCommonManifold
the visited set never exceeds 21 vertices, for any fuel: the size check runs
after the visit of each iteration, so the loop stops once MORE than 20
vertices have been processed, and a 21st vertex can be visited. -/
theorem bfs_processed_le_21 (sq : SQ) (nn fuel : ℕ) (s : BfsState)
    (h : s.processed.length ≤ 20) : (bfsRun sq nn fuel s).processed.length ≤ 21 := by
  induction fuel generalizing s with
  | zero => exact le_trans h (by omega)
  | succ f ih =>
    obtain ⟨lab, proc, que⟩ := s
    have hproc : proc.length ≤ 20 := h
    cases que with
    | nil => exact le_trans hproc (by omega)
    | cons c rest =>
      show (if 20 < (bfsStep sq nn ⟨lab, proc, c :: rest⟩).processed.length
        then bfsStep sq nn ⟨lab, proc, c :: rest⟩
        else bfsRun sq nn f (bfsStep sq nn ⟨lab, proc, c :: rest⟩)).processed.length ≤ 21
      have hstep : (bfsStep sq nn ⟨lab, proc, c :: rest⟩).processed.length ≤ proc.length + 1 := by
        show (setInsert c proc).length ≤ proc.length + 1
        exact setInsert_length_le c proc
      split_ifs with hgt
      · omega
      · exact ih _ (by omega)

theorem bfsRun_add_of_stopped (sq : SQ) (nn : ℕ) (f k : ℕ) (s : BfsState)
    (h1 : (bfsRun sq nn f s).queue = [] ∨ 20 < (bfsRun sq nn f s).processed.length)
    (h2 : s.processed.length ≤ 20) :
    bfsRun sq nn (f + k) s = bfsRun sq nn f s := by
  induction f generalizing s with
  | zero =>
    have hq : s.queue = [] := by
      rcases h1 with h | h
      · exact h
      · have h3 : 20 < s.processed.length := h
        omega
    rw [Nat.zero_add]
    exact bfsRun_nil_queue sq nn k s hq
  | succ f ih =>
    obtain ⟨lab, proc, que⟩ := s
    have hproc : proc.length ≤ 20 := h2
    cases que with
    | nil =>
      rw [bfsRun_nil_queue sq nn (f + 1 + k) _ rfl, bfsRun_nil_queue sq nn (f + 1) _ rfl]
    | cons c rest =>
      have hred : ∀ m : ℕ, bfsRun sq nn (m + 1) ⟨lab, proc, c :: rest⟩ =
          (if 20 < (bfsStep sq nn ⟨lab, proc, c :: rest⟩).processed.length
           then bfsStep sq nn ⟨lab, proc, c :: rest⟩
           else bfsRun sq nn m (bfsStep sq nn ⟨lab, proc, c :: rest⟩)) := fun m => rfl
      have hkrw : f + 1 + k = (f + k) + 1 := by omega
      by_cases hgt : 20 < (bfsStep sq nn ⟨lab, proc, c :: rest⟩).processed.length
      · rw [hkrw, hred (f + k), hred f, if_pos hgt, if_pos hgt]
      · have h1b : (bfsRun sq nn f (bfsStep sq nn ⟨lab, proc, c :: rest⟩)).queue = [] ∨
            20 < (bfsRun sq nn f (bfsStep sq nn ⟨lab, proc, c :: rest⟩)).processed.length := by
          rw [hred f, if_neg hgt] at h1
          exact h1
        rw [hkrw, hred (f + k), hred f, if_neg hgt, if_neg hgt]
        exact ih _ h1b (by omega)

/-- Counterexample for claim C7 as stated: on the path triangulation of
sqLine, the traversal that manifoldSet runs for critical point 0 (start
vertex 0, neighbor count 1, hence this exact fuel) processes 21 vertices
before the size check breaks the loop, so the visited set does exceed 20. -/
theorem bfs_visits_21_vertices :
    (bfsRun sqLine 1 ((1 + 1) ^ 25) ⟨[], [], [0]⟩).processed.length = 21 ∧
    manifoldSet sqLine 0 = (bfsRun sqLine 1 ((1 + 1) ^ 25) ⟨[], [], [0]⟩).labels := by
  constructor
  · have hstop : (bfsRun sqLine 1 30 ⟨[], [], [0]⟩).queue = [] ∨
        20 < (bfsRun sqLine 1 30 ⟨[], [], [0]⟩).processed.length := by
      right
      decide
    have habs := bfsRun_add_of_stopped sqLine 1 30 ((1 + 1) ^ 25 - 30)
      ⟨[], [], [0]⟩ hstop (by decide)
    have hpow : 30 + ((1 + 1) ^ 25 - 30) = (1 + 1) ^ 25 := by norm_num
    rw [← hpow, habs]
    decide
  · rfl

/-- Witness for claim C7 (amended) at a small fuel on the sqLine context. -/
theorem bfs_processed_le_21_witness :
    (⟨[], [], [0]⟩ : BfsState).processed.length ≤ 20 ∧
    (bfsRun sqLine 1 5 ⟨[], [], [0]⟩).processed.length ≤ 21 :=
  ⟨by decide, bfs_processed_le_21 sqLine 1 5 _ (by decide)⟩

theorem mem_foldl_filter (rest : List (List ℤ)) (m : List ℤ) (x : ℤ) :
    (x ∈ rest.foldl (fun acc s => acc.filter (fun y => decide (y ∈ s))) m) ↔
      (x ∈ m ∧ ∀ s ∈ rest, x ∈ s) := by
  induction rest generalizing m with
  | nil => simp
  | cons s ss ih =>
    rw [List.foldl_cons, ih]
    simp only [List.mem_filter, decide_eq_true_eq, List.mem_cons]
    constructor
    · rintro ⟨⟨hm, hs⟩, hss⟩
      refine ⟨hm, ?_⟩
      rintro t (rfl | ht)
      · exact hs
      · exact hss t ht
    · rintro ⟨hm, hall⟩
      exact ⟨⟨hm, hall s (Or.inl rfl)⟩, fun t ht => hall t (Or.inr ht)⟩

theorem hasCommonManifold_iff (sq : SQ) (v : ℕ) (vs : List ℕ) :
    hasCommonManifold sq (v :: vs) = true ↔
      ∃ x : ℤ, ∀ u ∈ v :: vs, x ∈ manifoldSet sq u := by
  have hfold : foldInter ((v :: vs).map (manifoldSet sq)) =
      (vs.map (manifoldSet sq)).foldl
        (fun acc s => acc.filter (fun y => decide (y ∈ s))) (manifoldSet sq v) := rfl
  unfold hasCommonManifold
  rw [hfold]
  rw [Bool.not_eq_true']
  rw [← Bool.not_eq_true]
  rw [List.isEmpty_iff]
  constructor
  · intro h
    obtain ⟨x, hx⟩ := List.exists_mem_of_ne_nil _ h
    obtain ⟨hxm, hxs⟩ := (mem_foldl_filter _ _ _).mp hx
    refine ⟨x, ?_⟩
    rintro u hu
    rcases List.mem_cons.mp hu with rfl | hu
    · exact hxm
    · exact hxs _ (List.mem_map_of_mem _ hu)
  · rintro ⟨x, hx⟩ hemp
    have hxmem : x ∈ (vs.map (manifoldSet sq)).foldl
        (fun acc s => acc.filter (fun y => decide (y ∈ s))) (manifoldSet sq v) := by
      apply (mem_foldl_filter _ _ _).mpr
      refine ⟨hx v (List.mem_cons_self ..), ?_⟩
      intro s hs
      obtain ⟨u, hu, rfl⟩ := List.mem_map.mp hs
      exact hx u (List.mem_cons_of_mem _ hu)
    rw [hemp] at hxmem
    simp at hxmem

/-- Claim C8: hasCommonManifold is commutative in its input order (permuting
the input vector leaves the result unchanged, since each per-point label set
depends only on its own point) and monotone (appending a point never turns a
false result true, the fold of pairwise intersections only shrinks). -/
theorem hasCommonManifold_comm_mono (sq : SQ) (verts verts2 : List ℕ) (p : ℕ)
    (hlen : 2 ≤ verts.length) (hperm : List.Perm verts verts2) :
    hasCommonManifold sq verts = hasCommonManifold sq verts2 ∧
    (hasCommonManifold sq verts = false →
      hasCommonManifold sq (verts ++ [p]) = false) := by
  obtain ⟨v, vs, rfl⟩ : ∃ v vs, verts = v :: vs := by
    cases verts with
    | nil => simp at hlen
    | cons a l => exact ⟨a, l, rfl⟩
  obtain ⟨w, ws, rfl⟩ : ∃ w ws, verts2 = w :: ws := by
    cases verts2 with
    | nil =>
      exfalso
      have := hperm.length_eq
      simp at this
    | cons a l => exact ⟨a, l, rfl⟩
  constructor
  · rw [Bool.eq_iff_iff, hasCommonManifold_iff, hasCommonManifold_iff]
    constructor
    · rintro ⟨x, hx⟩
      exact ⟨x, fun u hu => hx u (hperm.mem_iff.mpr hu)⟩
    · rintro ⟨x, hx⟩
      exact ⟨x, fun u hu => hx u (hperm.mem_iff.mp hu)⟩
  · intro hfalse
    rw [show (v :: vs) ++ [p] = v :: (vs ++ [p]) from rfl]
    rw [← Bool.not_eq_true, hasCommonManifold_iff]
    rintro ⟨x, hx⟩
    have htrue : hasCommonManifold sq (v :: vs) = true := by
      apply (hasCommonManifold_iff sq v vs).mpr
      refine ⟨x, fun u hu => hx u ?_⟩
      rcases List.mem_cons.mp hu with rfl | hu
      · exact List.mem_cons_self ..
      · exact List.mem_cons_of_mem _ (List.mem_append_left _ hu)
    rw [hfalse] at htrue
    cases htrue

/-- Witness for claim C8: the two saddles of the sqD scenario in both orders,
with extremum 2 appended. -/
theorem hasCommonManifold_comm_mono_witness :
    2 ≤ ([1, 3] : List ℕ).length ∧ List.Perm [1, 3] [3, 1] ∧
    (hasCommonManifold sqD [1, 3] = hasCommonManifold sqD [3, 1] ∧
     (hasCommonManifold sqD [1, 3] = false →
       hasCommonManifold sqD ([1, 3] ++ [2]) = false)) :=
  ⟨by decide, by decide,
   hasCommonManifold_comm_mono sqD [1, 3] [3, 1] 2 (by decide) (by decide)⟩

/-- Claim C10 (refuted by the code): the sepBounds scan of
findSeparatrixMiddle pairs every index i below the position-list length with
i + 1, so on every nonempty position list the final iteration reads index
length, one entry past the end of the vector. -/
theorem findSeparatrixMiddle_scan_out_of_bounds {α : Type} (pos : List α)
    (h : pos ≠ []) :
    pos.length ∈ fsmScanReads pos ∧ ¬ pos.length < pos.length := by
  have hpos : 0 < pos.length := List.length_pos.mpr h
  constructor
  · unfold fsmScanReads
    apply List.mem_flatMap.mpr
    refine ⟨pos.length - 1, List.mem_range.mpr (by omega), ?_⟩
    have heq : pos.length - 1 + 1 = pos.length := by omega
    rw [heq]
    simp
  · omega

/-- Witness for claim C10 on a one-entry position list: the scan reads row
index 1 of a list of length 1. -/
theorem findSeparatrixMiddle_scan_oob_witness :
    ([((0 : ℤ), (0 : ℕ))] ≠ []) ∧
    (([((0 : ℤ), (0 : ℕ))] : List (ℤ × ℕ)).length ∈ fsmScanReads [((0 : ℤ), (0 : ℕ))] ∧
     ¬ ([((0 : ℤ), (0 : ℕ))] : List (ℤ × ℕ)).length < [((0 : ℤ), (0 : ℕ))].length) :=
  ⟨by decide, findSeparatrixMiddle_scan_out_of_bounds _ (by decide)⟩
